import Mathlib

/-!
Verification of the electoral-roll extractor.

A shallow embedding of the three source files of the repository
(`extractor/data_processor.py`, `extractor/text_extractor.py`,
`extractor/image_processor.py`) and proofs about the claims of the spec.

Python strings are modelled as lists of character codes (`List Nat`);
the dynamically typed values of Python (as they appear in DataFrame cells and
as arguments to the parsing functions) are modelled by `PyVal`.
Regular-expression searches in the source are embedded as explicit
left-to-right scanning functions: each regex used by the code is free of
genuine backtracking (every `\s*` is followed by a non-whitespace
character class, `\d+`/`\w+` are final or followed by nothing), so a
deterministic greedy scanner is an exact model of `re.search`.
-/

namespace ElectoralRoll

/-- Python strings modelled as lists of character codes. -/
abbrev Str := List Nat

/-- Code of a character literal. -/
def ch (c : Char) : Nat := c.toNat

/-- String literal as a list of character codes. -/
def lit (s : String) : Str := s.data.map ch

/-- ASCII whitespace: the characters matched by the regex class `\s`
and treated as whitespace by `str.strip`/`str.split`. -/
def isSpaceCh (n : Nat) : Bool :=
  n == 32 || n == 9 || n == 10 || n == 13 || n == 11 || n == 12

/-- The class `[A-Z]`. -/
def isUpperCh (n : Nat) : Bool := 65 ≤ n && n ≤ 90

/-- The class `[a-z]`. -/
def isLowerCh (n : Nat) : Bool := 97 ≤ n && n ≤ 122

/-- The class `[a-zA-Z]`. -/
def isAlphaCh (n : Nat) : Bool := isUpperCh n || isLowerCh n

/-- The class `[0-9]`, the regex class `\d`. -/
def isDigitCh (n : Nat) : Bool := 48 ≤ n && n ≤ 57

/-- The regex class `\w` = `[a-zA-Z0-9_]`. -/
def isWordCh (n : Nat) : Bool := isAlphaCh n || isDigitCh n || n == 95

/-- ASCII `str.lower` on one character. -/
def toLowerCh (n : Nat) : Nat := if isUpperCh n then n + 32 else n

/-- ASCII upper-casing of one character. -/
def toUpperCh (n : Nat) : Nat := if isLowerCh n then n - 32 else n

/-- Python `str.lower()`. -/
def lowerStr (s : Str) : Str := s.map toLowerCh

/-- Case-insensitive comparison of a character against a lowercase
template character (how `re.IGNORECASE` matches a literal). -/
def lowEq (c : Nat) (t : Char) : Bool := toLowerCh c == ch t

/-- Model of `re.sub(r'\s+', ' ', s)`: each maximal whitespace run becomes one
space. Computed from the right: a whitespace character is dropped when
the collapsed remainder already starts with the space standing for the
run it belongs to. -/
def collapseWs : Str → Str
  | [] => []
  | c :: cs =>
    if isSpaceCh c then
      let r := collapseWs cs
      if r.head? == some 32 then r else 32 :: r
    else c :: collapseWs cs

/-- Remove the trailing characters satisfying `p`. -/
def stripEndWhile (p : Nat → Bool) (s : Str) : Str :=
  (s.reverse.dropWhile p).reverse

/-- Python `str.strip(chars)` generalised to a predicate: remove the
characters satisfying `p` from both ends. -/
def stripChars (p : Nat → Bool) (s : Str) : Str :=
  stripEndWhile p (s.dropWhile p)

/-- Python `str.strip()` (whitespace at both ends). -/
def pyStrip (s : Str) : Str := stripChars isSpaceCh s

/-- Python `str.split(sep)` with a one-character separator: keeps empty
pieces, `[""]` on the empty string. -/
def splitChar (sep : Nat) : Str → List Str
  | [] => [[]]
  | c :: cs =>
    if c == sep then [] :: splitChar sep cs
    else
      match splitChar sep cs with
      | [] => [[c]]
      | w :: ws => (c :: w) :: ws

/-- Python `str.split()` with no argument: the maximal runs of
non-whitespace characters (empty pieces dropped). Computed from the
right: a non-whitespace character either starts a new word (next
character whitespace or end) or extends the first word of the split of
the remainder. -/
def pySplit : Str → List Str
  | [] => []
  | c :: cs =>
    if isSpaceCh c then pySplit cs
    else
      match cs, pySplit cs with
      | [], _ => [[c]]
      | c2 :: _, r =>
        if isSpaceCh c2 then [c] :: r
        else
          match r with
          | [] => [[c]]
          | w :: ws => (c :: w) :: ws

/-- Python `' '.join(ws)`. -/
def joinSp : List Str → Str
  | [] => []
  | [w] => w
  | w :: ws => w ++ 32 :: joinSp ws

/-- Python `str.capitalize()`: first character upper-cased, the rest
lower-cased. -/
def capWord : Str → Str
  | [] => []
  | c :: r => toUpperCh c :: r.map toLowerCh

/-- Model of `' '.join(word.capitalize() for word in s.split())`, the name
formatting step shared by both name extractors. -/
def capJoin (s : Str) : Str := joinSp ((pySplit s).map capWord)

/-- Is `p` a prefix of `l`? -/
def isPre : Str → Str → Bool
  | [], _ => true
  | _ :: _, [] => false
  | p :: ps, c :: cs => p == c && isPre ps cs

/-- Python `pat in s` (substring containment). -/
def containsSub (pat : Str) : Str → Bool
  | [] => pat.isEmpty
  | c :: cs => isPre pat (c :: cs) || containsSub pat cs

/-- Numeric value of a digit character. -/
def digitVal (n : Nat) : Nat := n - 48

/-- Python `int()` on a non-empty string of digit characters. -/
def digitsToNat (ds : Str) : Nat := ds.foldl (fun a c => a * 10 + digitVal c) 0

/-- Python `str()` of a natural number. -/
def natRepr (n : Nat) : Str :=
  if n < 10 then [48 + n] else natRepr (n / 10) ++ [48 + n % 10]
termination_by n
decreasing_by exact Nat.div_lt_self (by omega) (by omega)

/-- Python `str()` of an integer. -/
def intRepr (i : Int) : Str :=
  if i < 0 then ch '-' :: natRepr i.natAbs else natRepr i.natAbs

/-- A dynamically typed Python value as it occurs in a DataFrame cell or
as an argument of the parsing functions: a missing value (`None`, `NaN`
or `pd.NA`, all of which `pd.isna` reports as missing and none of which
is a `str`), an integer, or a string. -/
inductive PyVal where
  | nan : PyVal
  | int (i : Int) : PyVal
  | str (s : Str) : PyVal
deriving DecidableEq

/-- Model of `pd.isna`. -/
def pdIsna : PyVal → Bool
  | .nan => true
  | _ => false

/-- Python `str(value)`. -/
def pyStrOf : PyVal → Str
  | .nan => lit "nan"
  | .int i => intRepr i
  | .str s => s

/-! ## Field Parser (`extractor/data_processor.py`) -/

/-- Cleaning step of `extract_and_format_name`:
`re.sub(r'[^a-zA-Z\s]', '', text)` (deletion) followed by
`re.sub(r'\s+', ' ', ...).strip()`. -/
def cleanName (s : Str) : Str :=
  pyStrip (collapseWs (s.filter (fun c => isAlphaCh c || isSpaceCh c)))

/-- Model of `extract_and_format_name` (data_processor.py lines 15–51). -/
def extract_and_format_name : PyVal → Str
  | .str s =>
    let cleaned := cleanName s
    let parts := splitChar 32 cleaned
    if parts.length > 1 then capJoin (joinSp (parts.drop 1))
    else []
  | _ => []

/-- Cleaning step of `extract_name_and_relation`:
`re.sub(r'[^a-zA-Z\s]', ' ', text)` (replacement by a space) followed by
`re.sub(r'\s+', ' ', ...).strip().lower()`. -/
def cleanRel (s : Str) : Str :=
  lowerStr (pyStrip (collapseWs
    (s.map (fun c => if isAlphaCh c || isSpaceCh c then c else 32))))

/-- Model of `re.search(r'(?:name|others)\s*(.*)', cleaned)`: at the leftmost
position where `name` or `others` starts, the capture is everything
after the keyword and the following whitespace. -/
def findNameRest : Str → Option Str
  | [] => none
  | c :: cs =>
    if isPre (lit "name") (c :: cs) then
      some (((c :: cs).drop 4).dropWhile isSpaceCh)
    else if isPre (lit "others") (c :: cs) then
      some (((c :: cs).drop 6).dropWhile isSpaceCh)
    else findNameRest cs

/-- Model of `extract_name_and_relation` (data_processor.py lines 54–101). -/
def extract_name_and_relation : PyVal → Str × Str
  | .str s =>
    let cleaned := cleanRel s
    let name0 :=
      match findNameRest cleaned with
      | some rest => pyStrip rest
      | none => []
    let name := capJoin name0
    let relation :=
      if containsSub (lit "father") cleaned then lit "FTHR"
      else if containsSub (lit "husband") cleaned then lit "HSBN"
      else if containsSub (lit "others") cleaned then lit "OTHR"
      else []
    (name, relation)
  | _ => ([], [])

/-- Cleaning step of `extract_house_number`:
`re.sub(r'[^a-zA-Z0-9\s-]', ' ', text)` followed by
`re.sub(r'\s+', ' ', ...).strip().lower()`. -/
def cleanHouse (s : Str) : Str :=
  lowerStr (pyStrip (collapseWs
    (s.map (fun c =>
      if isAlphaCh c || isDigitCh c || isSpaceCh c || c == ch '-' then c
      else 32))))

/-- The class `[:\s]` of the house-number regex. -/
def isHouseSep (c : Nat) : Bool := c == ch ':' || isSpaceCh c

/-- The lazy part `.*?[:\s](.*)` of the house-number regex: everything
after the first `[:\s]` character. -/
def findSepRest : Str → Option Str
  | [] => none
  | c :: cs => if isHouseSep c then some cs else findSepRest cs

/-- Model of `re.search(r'house\s*number.*?[:\s](.*)', cleaned)`: the capture of
the leftmost match. -/
def findHouseCapture : Str → Option Str
  | [] => none
  | c :: cs =>
    if isPre (lit "house") (c :: cs) then
      let afterHouse := ((c :: cs).drop 5).dropWhile isSpaceCh
      if isPre (lit "number") afterHouse then
        match findSepRest (afterHouse.drop 6) with
        | some cap => some cap
        | none => findHouseCapture cs
      else findHouseCapture cs
    else findHouseCapture cs

/-- The characters removed by `entry.strip(' -')`. -/
def isStripCh (c : Nat) : Bool := c == 32 || c == ch '-'

/-- Model of `extract_house_number` (data_processor.py lines 104–141). -/
def extract_house_number : PyVal → Str
  | .str s =>
    match findHouseCapture (cleanHouse s) with
    | some cap =>
      let entry := pyStrip cap
      if entry == [] || entry == [ch '-'] then entry
      else stripChars isStripCh entry
    | none => []
  | _ => []

/-- Model of `clean_number` (data_processor.py lines 144–179). -/
def clean_number : PyVal → Option Nat
  | .nan => none
  | v =>
    let value_str := pyStrOf v
    let before_decimal := (splitChar (ch '.') value_str).headD []
    let cleaned := before_decimal.filter isDigitCh
    if cleaned == [] then none else some (digitsToNat cleaned)

/-- The separator class `[:!l+]` of the age/gender regexes; under
`re.IGNORECASE` the letter also matches upper case. -/
def isSepCh (c : Nat) : Bool :=
  c == ch ':' || c == ch '!' || c == ch 'l' || c == ch 'L' || c == ch '+'

/-- One attempt of `Ag[ee]\s*[:!l+]\s*(\d+)` (with `re.IGNORECASE`) at
the current position; the class `[ee]` matches exactly one `e`. -/
def tryAgeAt : Str → Option Nat
  | a :: g :: e :: rest =>
    if lowEq a 'a' && lowEq g 'g' && lowEq e 'e' then
      match rest.dropWhile isSpaceCh with
      | sep :: r2 =>
        if isSepCh sep then
          let ds := (r2.dropWhile isSpaceCh).takeWhile isDigitCh
          if ds == [] then none else some (digitsToNat ds)
        else none
      | [] => none
    else none
  | _ => none

/-- The `re.search` scan for the age pattern: leftmost match wins. -/
def findAge : Str → Option Nat
  | [] => none
  | c :: cs =>
    match tryAgeAt (c :: cs) with
    | some n => some n
    | none => findAge cs

/-- Model of `extract_age` (data_processor.py lines 182–203). -/
def extract_age : PyVal → Option Nat
  | .str s => findAge s
  | _ => none

/-- One attempt of `Gen[de]r\s*[:!l+]\s*(\w+)` (with `re.IGNORECASE`) at
the current position; the class `[de]` matches exactly one character,
either `d` or `e`. Returns the captured word. -/
def tryGenderAt : Str → Option Str
  | g :: e :: n :: d :: r :: rest =>
    if lowEq g 'g' && lowEq e 'e' && lowEq n 'n' &&
        (lowEq d 'd' || lowEq d 'e') && lowEq r 'r' then
      match rest.dropWhile isSpaceCh with
      | sep :: r2 =>
        if isSepCh sep then
          let word := (r2.dropWhile isSpaceCh).takeWhile isWordCh
          if word == [] then none else some word
        else none
      | [] => none
    else none
  | _ => none

/-- The `re.search` scan for the strict gender pattern. -/
def findGenderWord : Str → Option Str
  | [] => none
  | c :: cs =>
    match tryGenderAt (c :: cs) with
    | some w => some w
    | none => findGenderWord cs

/-- Scan for `\b` followed by the literal `pat` (whose first character
is a word character): a match at a position requires the previous
character to not be a word character (or the position to be the start). -/
def bScanAux (pat : Str) : Str → Bool → Bool
  | [], _ => false
  | c :: cs, prevWord =>
    (!prevWord && isPre pat (c :: cs)) || bScanAux pat cs (isWordCh c)

/-- Model of `re.search(r'\b' + pat, s) is not None` for a pattern starting with
a word character. -/
def hasBoundPat (pat : Str) (s : Str) : Bool := bScanAux pat s false

/-- The lenient fallback of `extract_gender`: scan the whole lowercased
text for `\bma`, then `\bfe`. -/
def lenientGender (s : Str) : Option Str :=
  let low := lowerStr s
  if hasBoundPat (lit "ma") low then some (lit "M")
  else if hasBoundPat (lit "fe") low then some (lit "F")
  else none

/-- Model of `extract_gender` (data_processor.py lines 206–242). -/
def extract_gender : PyVal → Option Str
  | .str s =>
    (match findGenderWord s with
     | some w =>
       let gender := lowerStr w
       if containsSub (lit "ma") gender then some (lit "M")
       else if containsSub (lit "fe") gender then some (lit "F")
       else lenientGender s
     | none => lenientGender s)
  | _ => none

/-- Modelled from the spec: one attempt, at the current position, of the
strict gender pattern as the claim words it — the token `Gender` with
the `de` tolerated missing (the pattern `Gen(de)?r`), then the same
separator class and a word. This is NOT the pattern of the code (which
is `Gen[de]r`: exactly one of `d`/`e` between `Gen` and `r`); it exists
to compare the claimed behaviour with the implemented one. -/
def tryGenderSpecAt : Str → Option Str
  | g :: e :: n :: rest =>
    if lowEq g 'g' && lowEq e 'e' && lowEq n 'n' then
      let afterOpt :=
        match rest with
        | d :: e2 :: tl => if lowEq d 'd' && lowEq e2 'e' then tl else rest
        | _ => rest
      match afterOpt with
      | r :: tail =>
        if lowEq r 'r' then
          match tail.dropWhile isSpaceCh with
          | sep :: r2 =>
            if isSepCh sep then
              let word := (r2.dropWhile isSpaceCh).takeWhile isWordCh
              if word == [] then none else some word
            else none
          | [] => none
        else none
      | [] => none
    else none
  | _ => none

/-- Modelled from the spec: scan for the spec-worded strict pattern. -/
def findGenderSpecWord : Str → Option Str
  | [] => none
  | c :: cs =>
    match tryGenderSpecAt (c :: cs) with
    | some w => some w
    | none => findGenderSpecWord cs

/-- Modelled from the spec: the gender-extraction algorithm exactly as
the claim describes it — strict pattern `Gen(de)?r` with separator and
word, classify the word by `ma` then `fe`, and on failure to match or
classify fall back to the word-boundary scan of the whole text. -/
def genderSpec (s : Str) : Option Str :=
  match findGenderSpecWord s with
  | some w =>
    let gender := lowerStr w
    if containsSub (lit "ma") gender then some (lit "M")
    else if containsSub (lit "fe") gender then some (lit "F")
    else lenientGender s
  | none => lenientGender s

/-- A word of a well-formed extracted name: non-empty, first character
an upper-case letter, the rest lower-case letters. -/
def goodWord : Str → Prop
  | [] => False
  | c :: r => isUpperCh c = true ∧ ∀ x ∈ r, isLowerCh x = true

/-- A well-formed extracted name: some list of capitalized all-letter
words joined by single spaces (so: only letters and single spaces, no
leading/trailing space, each word capitalized). -/
def NameOk (s : Str) : Prop :=
  ∃ ws, (∀ w ∈ ws, goodWord w) ∧ s = joinSp ws

/-! ## Record Assembler (`extractor/text_extractor.py`)

The image operations (`cv2`, `PIL`, `pytesseract`) are external
libraries; their invocations are modelled as oracle functions in an
`OcrEnv`. A fallible oracle returns `Except`: an `.error` models the
call raising an exception. `extract_number` and `extract_text` catch
every exception of their own bodies (text_extractor.py lines 40–83 and
106–116) and degrade to the empty string, so they are total;
`remove_watermark` (image_processor.py lines 55–100) re-raises, so its
exceptions reach the handler inside `process_voter_box`. -/

/-- An image: a grid of pixel values. -/
abbrev Img := List (List Nat)

/-- numpy slicing `img[y:y+h, x:x+w]` with non-negative bounds
(clamped at the borders). -/
def npCrop (img : Img) (y h x w : Nat) : Img :=
  ((img.drop y).take h).map (fun row => (row.drop x).take w)

/-- The external image/OCR operations invoked by the Record Assembler,
as oracles. `.error` models the call raising an exception. -/
structure OcrEnv where
  remove_watermark_fn : Img → Except Str Img
  extract_number_fn : Img → Nat → Nat → Nat → Nat → Except Str Str
  extract_text_fn : Img → Nat → Nat → Nat → Nat → Except Str Str

/-- Model of `extract_number` (text_extractor.py lines 19–83): its whole body is
external image processing plus a digit-mode OCR call, wrapped in a
`try/except` that returns the empty string. The engine result is
`.strip()`-ed. -/
def extract_number (env : OcrEnv) (img : Img) (x y w h : Nat) : Str :=
  match env.extract_number_fn img x y w h with
  | .ok s => pyStrip s
  | .error _ => []

/-- Model of `extract_text` (text_extractor.py lines 86–116): a block-mode OCR
call wrapped in a `try/except` that returns the empty string. The
engine result is `.strip()`-ed. -/
def extract_text (env : OcrEnv) (img : Img) (x y w h : Nat) : Str :=
  match env.extract_text_fn img x y w h with
  | .ok s => pyStrip s
  | .error _ => []

/-- The fixed-shape raw record emitted per voter box. -/
structure RawBoxRecord where
  number : Str
  top_right_text : Str
  line1 : Str
  line2 : Str
  line3 : Str
  line4 : Str
deriving DecidableEq

/-- The all-empty record returned on a caught exception. -/
def emptyRecord : RawBoxRecord := ⟨[], [], [], [], [], []⟩

/-- Model of `lines = text.split('\n'); lines = [l.strip() for l in lines if l.strip()]`. -/
def nonEmptyLines (t : Str) : List Str :=
  ((splitChar 10 t).map pyStrip).filter (fun l => !l.isEmpty)

/-- The padding/truncation step of `process_voter_box`: append empty
strings until there are four entries, then keep only the first four. -/
def padTo4 (ls : List Str) : List Str :=
  (ls ++ List.replicate (4 - ls.length) []).take 4

/-- The body of `process_voter_box` (text_extractor.py lines 135–180),
up to but not including its `except` clause. The only step of the body
that can raise is `remove_watermark`; the width `int(w * 2/3)` of the
main text block is modelled with exact arithmetic. -/
def process_voter_box_body (env : OcrEnv) (img : Img)
    (box innerBox : Nat × Nat × Nat × Nat) : Except Str RawBoxRecord :=
  let (x, y, w, h) := box
  let (ix, iy, iw, ih) := innerBox
  let box_img := npCrop img y h x w
  match env.remove_watermark_fn box_img with
  | .error e => .error e
  | .ok clean_img =>
    let number := extract_number env clean_img ix iy iw ih
    let top_right_text := extract_text env clean_img (iw + 10) 0 (w - iw - 10) ih
    let text_y := iy + ih + 5
    let text := extract_text env clean_img 5 text_y (w * 2 / 3) (h - text_y - 5)
    let lines := padTo4 (nonEmptyLines text)
    .ok ⟨number, top_right_text,
      lines.getD 0 [], lines.getD 1 [], lines.getD 2 [], lines.getD 3 []⟩

/-- Model of `process_voter_box` (text_extractor.py lines 119–190): the body
with its `except` clause returning the all-empty record. -/
def process_voter_box (env : OcrEnv) (img : Img)
    (box innerBox : Nat × Nat × Nat × Nat) : RawBoxRecord :=
  match process_voter_box_body env img box innerBox with
  | .ok r => r
  | .error _ => emptyRecord

/-! ## Table Builder (`process_raw_data`, data_processor.py lines 245–304) -/

/-- A column name of the raw DataFrame. -/
inductive Col where
  | number | top_right_text | line1 | line2 | line3 | line4 | page | box
deriving DecidableEq

/-- One row of the raw DataFrame handed to `process_raw_data`. -/
structure RawRow where
  number : PyVal
  top_right_text : PyVal
  line1 : PyVal
  line2 : PyVal
  line3 : PyVal
  line4 : PyVal
  page : PyVal
  box : PyVal
deriving DecidableEq

/-- Cell lookup by column name. -/
def RawRow.get (r : RawRow) : Col → PyVal
  | .number => r.number
  | .top_right_text => r.top_right_text
  | .line1 => r.line1
  | .line2 => r.line2
  | .line3 => r.line3
  | .line4 => r.line4
  | .page => r.page
  | .box => r.box

/-- The raw DataFrame: its rows, and whether the optional provenance
columns `page`/`box` are present. -/
structure RawDF where
  rows : List RawRow
  hasPage : Bool
  hasBox : Bool

/-- One row of the processed DataFrame. -/
structure ParsedRecord where
  epic_no : Option Str
  voter_full_name : Str
  relative_name : Str
  relation_type : Str
  house_no : Str
  part_serial : Option Nat
  age : Option Nat
  gender : Option Str
  page : Option PyVal
  box : Option PyVal
deriving DecidableEq

/-- Model of `filtered_df['top_right_text'].str.replace(r'[^A-Z0-9]', '', regex=True)`:
on a string cell, keep only `A–Z` and digits; on a non-string cell the
`.str` accessor yields a missing value. -/
def strReplaceEpic : PyVal → Option Str
  | .str s => some (s.filter (fun c => isUpperCh c || isDigitCh c))
  | _ => none

/-- The per-row column construction of `process_raw_data` (lines
267–287 and 292–297): each Field Parser applied to its cell. -/
def parseRow (df : RawDF) (r : RawRow) : ParsedRecord :=
  { epic_no := strReplaceEpic r.top_right_text
    voter_full_name := extract_and_format_name r.line1
    relative_name := (extract_name_and_relation r.line2).1
    relation_type := (extract_name_and_relation r.line2).2
    house_no := extract_house_number r.line3
    part_serial := clean_number r.number
    age := extract_age r.line4
    gender := extract_gender r.line4
    page := if df.hasPage then some r.page else none
    box := if df.hasBox then some r.box else none }

/-- The ordering used by `sort_values(by='Part S.No', ascending=True)`:
ascending on present values, missing values placed last
(`na_position='last'`, the pandas default). -/
def partLe : Option Nat → Option Nat → Bool
  | _, none => true
  | none, some _ => false
  | some a, some b => decide (a ≤ b)

/-- Row ordering by the `Part S.No` column. -/
def recLe (a b : ParsedRecord) : Bool := partLe a.part_serial b.part_serial

/-- Model of `process_raw_data` (data_processor.py lines 245–304):
`df.dropna(subset=required_columns, how='all')` keeps a row exactly
when at least one required cell is non-missing (`pd.isna`-false); the
kept rows are parsed column-wise and sorted ascending by `Part S.No`. -/
def process_raw_data (df : RawDF) (required_columns : List Col) : List ParsedRecord :=
  let filtered := df.rows.filter
    (fun r => !(required_columns.all (fun c => pdIsna (r.get c))))
  let processed := filtered.map (parseRow df)
  processed.mergeSort recLe

/-- Oracle environment whose watermark removal raises. -/
def failWatermarkEnv : OcrEnv :=
  ⟨fun _ => .error [], fun _ _ _ _ _ => .ok [], fun _ _ _ _ _ => .ok []⟩

/-- Oracle environment whose number recognition raises while watermark
removal and text recognition succeed. -/
def failNumberEnv : OcrEnv :=
  ⟨fun i => .ok i, fun _ _ _ _ _ => .error [], fun _ _ _ _ _ => .ok (lit "ABC123")⟩

/-- All-succeeding oracle environment returning a two-line main text. -/
def okTextEnv : OcrEnv :=
  ⟨fun i => .ok i, fun _ _ _ _ _ => .ok (lit "7"), fun _ _ _ _ _ => .ok (lit " one \n\n two ")⟩

/-- A row whose only non-missing cell is `line1`, holding `"x"`. -/
def wRow : RawRow := ⟨.nan, .nan, .str (lit "x"), .nan, .nan, .nan, .nan, .nan⟩

/-- A one-row DataFrame around `wRow`. -/
def wDf : RawDF := ⟨[wRow], false, false⟩

/-- A row whose cells are all the empty string (none is missing). -/
def emptyStrRow : RawRow :=
  ⟨.str [], .str [], .str [], .str [], .str [], .str [], .str [], .str []⟩

/-! ## Helper lemmas -/

theorem orE {a b : Bool} (h : (a || b) = true) : a = true ∨ b = true := by
  rcases a <;> rcases b <;> simp_all

theorem head?_dropWhile_not (p : Nat → Bool) (l : Str) (c : Nat)
    (h : (l.dropWhile p).head? = some c) : p c = false := by
  induction l with
  | nil => simp at h
  | cons a as ih =>
    by_cases hp : p a = true
    · rw [List.dropWhile_cons_of_pos hp] at h
      exact ih h
    · rw [List.dropWhile_cons_of_neg hp] at h
      simp only [List.head?_cons, Option.some.injEq] at h
      subst h
      simpa using hp

theorem stripEndWhile_prefix (p : Nat → Bool) (l : Str) :
    ∃ t, stripEndWhile p l ++ t = l := by
  refine ⟨(l.reverse.takeWhile p).reverse, ?_⟩
  rw [stripEndWhile, ← List.reverse_append, List.takeWhile_append_dropWhile,
    List.reverse_reverse]

theorem stripChars_boundary (p : Nat → Bool) (l : Str) :
    stripChars p l = [] ∨
    ((∀ c, (stripChars p l).head? = some c → p c = false) ∧
     (∀ c, (stripChars p l).getLast? = some c → p c = false)) := by
  by_cases hnil : stripChars p l = []
  · exact Or.inl hnil
  refine Or.inr ⟨?_, ?_⟩
  · intro c hc
    obtain ⟨t, ht⟩ := stripEndWhile_prefix p (l.dropWhile p)
    have hh : (l.dropWhile p).head? = some c := by
      rw [← ht, List.head?_append]
      rcases hhead : (stripChars p l).head? with _ | d
      · rw [List.head?_eq_none_iff] at hhead
        exact absurd hhead hnil
      · rw [hc] at hhead
        cases hhead
        rw [stripChars] at hc
        rw [hc]
        rfl
    exact head?_dropWhile_not p l c hh
  · intro c hc
    rw [stripChars, stripEndWhile, List.getLast?_reverse] at hc
    exact head?_dropWhile_not p _ c hc

theorem mem_stripChars {p : Nat → Bool} {l : Str} {c : Nat}
    (h : c ∈ stripChars p l) : c ∈ l := by
  rw [stripChars, stripEndWhile] at h
  rw [List.mem_reverse] at h
  have h2 := (List.dropWhile_sublist (l := (l.dropWhile p).reverse) p).mem h
  rw [List.mem_reverse] at h2
  exact (List.dropWhile_sublist p).mem h2

theorem mem_collapseWs {l : Str} {c : Nat} (h : c ∈ collapseWs l) :
    c = 32 ∨ c ∈ l := by
  induction l with
  | nil => simp [collapseWs] at h
  | cons a as ih =>
    rw [collapseWs] at h
    have step : c = 32 ∨ c ∈ collapseWs as ∨ c = a := by
      by_cases hs : isSpaceCh a = true
      · rw [if_pos hs] at h
        by_cases hh : (collapseWs as).head? == some 32
        · rw [if_pos hh] at h
          exact Or.inr (Or.inl h)
        · rw [if_neg hh] at h
          rcases List.mem_cons.mp h with h | h
          · exact Or.inl h
          · exact Or.inr (Or.inl h)
      · rw [if_neg hs] at h
        rcases List.mem_cons.mp h with h | h
        · exact Or.inr (Or.inr h)
        · exact Or.inr (Or.inl h)
    rcases step with h' | h' | h'
    · exact Or.inl h'
    · rcases ih h' with h'' | h''
      · exact Or.inl h''
      · exact Or.inr (List.mem_cons_of_mem a h'')
    · exact Or.inr (by rw [h']; exact List.mem_cons_self a as)

theorem isUpperCh_iff {n : Nat} : isUpperCh n = true ↔ 65 ≤ n ∧ n ≤ 90 := by
  simp [isUpperCh]

theorem isLowerCh_iff {n : Nat} : isLowerCh n = true ↔ 97 ≤ n ∧ n ≤ 122 := by
  simp [isLowerCh]

theorem isAlphaCh_iff {n : Nat} :
    isAlphaCh n = true ↔ (65 ≤ n ∧ n ≤ 90) ∨ (97 ≤ n ∧ n ≤ 122) := by
  simp [isAlphaCh, isUpperCh, isLowerCh]

theorem isSpaceCh_iff {n : Nat} :
    isSpaceCh n = true ↔ n = 32 ∨ n = 9 ∨ n = 10 ∨ n = 13 ∨ n = 11 ∨ n = 12 := by
  simp only [isSpaceCh, Bool.or_eq_true, beq_iff_eq]
  tauto

theorem isUpper_toUpper {c : Nat} (h : isAlphaCh c = true) :
    isUpperCh (toUpperCh c) = true := by
  rw [isAlphaCh_iff] at h
  rw [toUpperCh]
  by_cases hl : isLowerCh c = true
  · rw [if_pos hl, isUpperCh_iff]
    rw [isLowerCh_iff] at hl
    omega
  · rw [if_neg hl, isUpperCh_iff]
    have h2 : ¬(97 ≤ c ∧ c ≤ 122) := fun hc => hl (isLowerCh_iff.mpr hc)
    omega

theorem isLower_toLower {c : Nat} (h : isAlphaCh c = true) :
    isLowerCh (toLowerCh c) = true := by
  rw [isAlphaCh_iff] at h
  rw [toLowerCh]
  by_cases hu : isUpperCh c = true
  · rw [if_pos hu, isLowerCh_iff]
    rw [isUpperCh_iff] at hu
    omega
  · rw [if_neg hu, isLowerCh_iff]
    have h2 : ¬(65 ≤ c ∧ c ≤ 90) := fun hc => hu (isUpperCh_iff.mpr hc)
    omega

theorem alphaOrSpace_toLower {c : Nat}
    (h : isAlphaCh c = true ∨ isSpaceCh c = true) :
    isAlphaCh (toLowerCh c) = true ∨ isSpaceCh (toLowerCh c) = true := by
  rcases h with h | h
  · left
    rw [isAlphaCh_iff] at h ⊢
    rw [toLowerCh]
    by_cases hu : isUpperCh c = true
    · rw [if_pos hu]
      rw [isUpperCh_iff] at hu
      omega
    · rw [if_neg hu]
      exact h
  · right
    have hu : ¬ (isUpperCh c = true) := by
      rw [isUpperCh_iff]
      rw [isSpaceCh_iff] at h
      omega
    rw [toLowerCh, if_neg hu]
    exact h

theorem mem_splitChar {sep : Nat} {l w : Str} {c : Nat}
    (hw : w ∈ splitChar sep l) (hc : c ∈ w) : c ∈ l := by
  induction l generalizing w with
  | nil =>
    simp [splitChar] at hw
    subst hw
    simp at hc
  | cons a as ih =>
    rw [splitChar] at hw
    by_cases ha : (a == sep) = true
    · rw [if_pos ha] at hw
      rcases List.mem_cons.mp hw with h | h
      · subst h
        simp at hc
      · exact List.mem_cons_of_mem a (ih h hc)
    · rw [if_neg ha] at hw
      rcases hsp : splitChar sep as with _ | ⟨w0, ws⟩
      · rw [hsp] at hw
        simp at hw
        subst hw
        simp at hc
        subst hc
        exact List.mem_cons_self c as
      · rw [hsp] at hw
        rcases List.mem_cons.mp hw with h | h
        · subst h
          rcases List.mem_cons.mp hc with h | h
          · subst h
            exact List.mem_cons_self c as
          · exact List.mem_cons_of_mem a
              (ih (by rw [hsp]; exact List.mem_cons_self w0 ws) h)
        · exact List.mem_cons_of_mem a
            (ih (by rw [hsp]; exact List.mem_cons_of_mem w0 h) hc)

theorem mem_joinSp {ws : List Str} {c : Nat} (h : c ∈ joinSp ws) :
    c = 32 ∨ ∃ w ∈ ws, c ∈ w := by
  induction ws with
  | nil => simp [joinSp] at h
  | cons w ws ih =>
    rcases ws with _ | ⟨w2, ws2⟩
    · right
      exact ⟨w, List.mem_cons_self _ _, by simpa [joinSp] using h⟩
    · have hj : joinSp (w :: w2 :: ws2) = w ++ 32 :: joinSp (w2 :: ws2) := rfl
      rw [hj] at h
      rcases List.mem_append.mp h with h | h
      · right
        exact ⟨w, List.mem_cons_self _ _, h⟩
      · rcases List.mem_cons.mp h with h | h
        · exact Or.inl h
        · rcases ih h with h' | ⟨w', hw', hc'⟩
          · exact Or.inl h'
          · right
            exact ⟨w', List.mem_cons_of_mem _ hw', hc'⟩

theorem pySplit_words {l : Str} :
    ∀ w ∈ pySplit l, w ≠ [] ∧ ∀ c ∈ w, c ∈ l ∧ isSpaceCh c = false := by
  induction l with
  | nil =>
    intro w hw
    simp [pySplit] at hw
  | cons a as ih =>
    intro w hw
    by_cases hs : isSpaceCh a = true
    · have hw' : w ∈ pySplit as := by
        have he : pySplit (a :: as) = pySplit as := by
          rw [pySplit.eq_def]
          simp [hs]
        rw [he] at hw
        exact hw
      obtain ⟨hne, hmem⟩ := ih w hw'
      exact ⟨hne, fun c hc =>
        ⟨List.mem_cons_of_mem a (hmem c hc).1, (hmem c hc).2⟩⟩
    · have hsf : isSpaceCh a = false := by
        cases hv : isSpaceCh a
        · rfl
        · exact absurd hv hs
      rcases as with _ | ⟨a2, as2⟩
      · have hw' : w ∈ [[a]] := by
          have he : pySplit [a] = [[a]] := by
            rw [pySplit.eq_def]
            simp [hsf]
          rw [he] at hw
          exact hw
        simp at hw'
        subst hw'
        refine ⟨by simp, ?_⟩
        intro c hc
        simp at hc
        subst hc
        exact ⟨List.mem_cons_self c _, hsf⟩
      · by_cases hs2 : isSpaceCh a2 = true
        · have hw' : w ∈ [a] :: pySplit (a2 :: as2) := by
            have he : pySplit (a :: a2 :: as2) = [a] :: pySplit (a2 :: as2) := by
              rw [pySplit.eq_def]
              simp [hsf, hs2]
            rw [he] at hw
            exact hw
          rcases List.mem_cons.mp hw' with h | h
          · subst h
            refine ⟨by simp, ?_⟩
            intro c hc
            simp at hc
            subst hc
            exact ⟨List.mem_cons_self c _, hsf⟩
          · obtain ⟨hne, hmem⟩ := ih w h
            exact ⟨hne, fun c hc =>
              ⟨List.mem_cons_of_mem a (hmem c hc).1, (hmem c hc).2⟩⟩
        · have hs2f : isSpaceCh a2 = false := by
            cases hv : isSpaceCh a2
            · rfl
            · exact absurd hv hs2
          rcases hsp : pySplit (a2 :: as2) with _ | ⟨w0, ws0⟩
          · have hw' : w ∈ [[a]] := by
              have he : pySplit (a :: a2 :: as2) = [[a]] := by
                rw [pySplit.eq_def]
                simp [hsf, hs2f, hsp]
              rw [he] at hw
              exact hw
            simp at hw'
            subst hw'
            refine ⟨by simp, ?_⟩
            intro c hc
            simp at hc
            subst hc
            exact ⟨List.mem_cons_self c _, hsf⟩
          · have hw' : w ∈ (a :: w0) :: ws0 := by
              have he : pySplit (a :: a2 :: as2) = (a :: w0) :: ws0 := by
                rw [pySplit.eq_def]
                simp [hsf, hs2f, hsp]
              rw [he] at hw
              exact hw
            rcases List.mem_cons.mp hw' with h | h
            · subst h
              refine ⟨by simp, ?_⟩
              intro c hc
              rcases List.mem_cons.mp hc with h | h
              · subst h
                exact ⟨List.mem_cons_self c _, hsf⟩
              · obtain ⟨hne0, hmem0⟩ :=
                  ih w0 (by rw [hsp]; exact List.mem_cons_self w0 ws0)
                exact ⟨List.mem_cons_of_mem a (hmem0 c h).1, (hmem0 c h).2⟩
            · obtain ⟨hne0, hmem0⟩ :=
                ih w (by rw [hsp]; exact List.mem_cons_of_mem w0 h)
              exact ⟨hne0, fun c hc =>
                ⟨List.mem_cons_of_mem a (hmem0 c hc).1, (hmem0 c hc).2⟩⟩

theorem findNameRest_subset {l r : Str} (h : findNameRest l = some r) :
    ∀ c ∈ r, c ∈ l := by
  induction l with
  | nil => simp [findNameRest] at h
  | cons a as ih =>
    rw [findNameRest] at h
    by_cases h1 : isPre (lit "name") (a :: as) = true
    · rw [if_pos h1] at h
      simp only [Option.some.injEq] at h
      subst h
      intro c hc
      exact List.drop_subset 4 (a :: as) ((List.dropWhile_sublist isSpaceCh).mem hc)
    · rw [if_neg h1] at h
      by_cases h2 : isPre (lit "others") (a :: as) = true
      · rw [if_pos h2] at h
        simp only [Option.some.injEq] at h
        subst h
        intro c hc
        exact List.drop_subset 6 (a :: as) ((List.dropWhile_sublist isSpaceCh).mem hc)
      · rw [if_neg h2] at h
        intro c hc
        exact List.mem_cons_of_mem a (ih h c hc)

/-- Python capitalizes each word of an all-letter text into a
well-formed name. -/
theorem goodWord_capWord {w : Str} (hne : w ≠ [])
    (h : ∀ c ∈ w, isAlphaCh c = true) : goodWord (capWord w) := by
  rcases w with _ | ⟨c, r⟩
  · exact absurd rfl hne
  · refine ⟨isUpper_toUpper (h c (List.mem_cons_self c r)), ?_⟩
    intro x hx
    rw [List.mem_map] at hx
    obtain ⟨y, hy, rfl⟩ := hx
    exact isLower_toLower (h y (List.mem_cons_of_mem c hy))

theorem capJoin_nameOk {l : Str}
    (h : ∀ c ∈ l, isAlphaCh c = true ∨ isSpaceCh c = true) :
    NameOk (capJoin l) := by
  refine ⟨(pySplit l).map capWord, ?_, rfl⟩
  intro w hw
  rw [List.mem_map] at hw
  obtain ⟨w0, hw0, rfl⟩ := hw
  obtain ⟨hne, hmem⟩ := pySplit_words w0 hw0
  refine goodWord_capWord hne ?_
  intro c hc
  obtain ⟨hcl, hns⟩ := hmem c hc
  rcases h c hcl with h' | h'
  · exact h'
  · rw [h'] at hns
    cases hns

theorem nameOk_nil : NameOk [] := ⟨[], by simp, rfl⟩

theorem nameOk_chars {s : Str} (h : NameOk s) :
    ∀ c ∈ s, isAlphaCh c = true ∨ c = 32 := by
  obtain ⟨ws, hws, rfl⟩ := h
  intro c hc
  rcases mem_joinSp hc with h' | ⟨w, hw, hcw⟩
  · exact Or.inr h'
  · left
    have hg := hws w hw
    rcases w with _ | ⟨a, r⟩
    · cases hg
    · obtain ⟨h1, h2⟩ := hg
      rcases List.mem_cons.mp hcw with rfl | hr
      · simp [isAlphaCh, h1]
      · simp [isAlphaCh, h2 c hr]

theorem digitsToNat_append (l : Str) (d : Nat) :
    digitsToNat (l ++ [d]) = digitsToNat l * 10 + digitVal d := by
  simp [digitsToNat, List.foldl_append]

theorem natRepr_digits (n : Nat) : ∀ c ∈ natRepr n, isDigitCh c = true := by
  induction n using Nat.strong_induction_on with
  | _ n ih =>
    rw [natRepr]
    by_cases h : n < 10
    · rw [if_pos h]
      intro c hc
      simp at hc
      subst hc
      simp only [isDigitCh, Bool.and_eq_true, decide_eq_true_eq]
      omega
    · rw [if_neg h]
      intro c hc
      rcases List.mem_append.mp hc with hc | hc
      · exact ih (n / 10) (Nat.div_lt_self (by omega) (by omega)) c hc
      · simp at hc
        subst hc
        simp only [isDigitCh, Bool.and_eq_true, decide_eq_true_eq]
        omega

theorem natRepr_ne_nil (n : Nat) : natRepr n ≠ [] := by
  rw [natRepr]
  by_cases h : n < 10
  · rw [if_pos h]
    simp
  · rw [if_neg h]
    simp

theorem digitsToNat_natRepr (n : Nat) : digitsToNat (natRepr n) = n := by
  induction n using Nat.strong_induction_on with
  | _ n ih =>
    rw [natRepr]
    by_cases h : n < 10
    · rw [if_pos h]
      simp only [digitsToNat, List.foldl_cons, List.foldl_nil, digitVal]
      omega
    · rw [if_neg h]
      rw [digitsToNat_append, ih (n / 10) (Nat.div_lt_self (by omega) (by omega))]
      simp only [digitVal]
      omega

theorem splitChar_eq_self {sep : Nat} {l : Str}
    (h : ∀ c ∈ l, (c == sep) = false) : splitChar sep l = [l] := by
  induction l with
  | nil => rfl
  | cons a as ih =>
    have ha : (a == sep) = false := h a (List.mem_cons_self a as)
    rw [splitChar, if_neg (by simp [ha]),
      ih (fun c hc => h c (List.mem_cons_of_mem a hc))]

theorem padTo4_length (ls : List Str) : (padTo4 ls).length = 4 := by
  simp only [padTo4, List.length_take, List.length_append, List.length_replicate]
  omega

theorem padTo4_eq_getD (ls : List Str) :
    padTo4 ls = [(padTo4 ls).getD 0 [], (padTo4 ls).getD 1 [],
      (padTo4 ls).getD 2 [], (padTo4 ls).getD 3 []] := by
  have h := padTo4_length ls
  rcases hp : padTo4 ls with _ | ⟨a, _ | ⟨b, _ | ⟨c, _ | ⟨d, rest⟩⟩⟩⟩ <;>
      rw [hp] at h <;>
      simp only [List.length_nil, List.length_cons] at h
  · omega
  · omega
  · omega
  · omega
  · have hr : rest = [] := List.length_eq_zero.mp (by omega)
    subst hr
    rfl

theorem partLe_trans (a b c : Option Nat)
    (h1 : partLe a b = true) (h2 : partLe b c = true) : partLe a c = true := by
  rcases a with _ | a <;> rcases b with _ | b <;> rcases c with _ | c <;>
    simp [partLe] at * <;> omega

theorem partLe_total (a b : Option Nat) : (partLe a b || partLe b a) = true := by
  rcases a with _ | a <;> rcases b with _ | b <;> simp [partLe] <;> omega

/-! ## Claim theorems -/

/-- C3: for every input string, `extract_name_and_relation` returns a
relation code in the closed set `{FTHR, HSBN, OTHR, ""}`, chosen by
substring search on the cleaned lowercased text in priority order:
`father` → FTHR, else `husband` → HSBN, else `others` → OTHR, else
the empty string. -/
theorem claim_C3_relation (s : Str) :
    ((extract_name_and_relation (.str s)).2 = lit "FTHR" ∨
     (extract_name_and_relation (.str s)).2 = lit "HSBN" ∨
     (extract_name_and_relation (.str s)).2 = lit "OTHR" ∨
     (extract_name_and_relation (.str s)).2 = []) ∧
    (extract_name_and_relation (.str s)).2 =
      (if containsSub (lit "father") (cleanRel s) then lit "FTHR"
       else if containsSub (lit "husband") (cleanRel s) then lit "HSBN"
       else if containsSub (lit "others") (cleanRel s) then lit "OTHR"
       else []) := by
  have h2 : (extract_name_and_relation (.str s)).2 =
      (if containsSub (lit "father") (cleanRel s) then lit "FTHR"
       else if containsSub (lit "husband") (cleanRel s) then lit "HSBN"
       else if containsSub (lit "others") (cleanRel s) then lit "OTHR"
       else []) := rfl
  refine ⟨?_, h2⟩
  rw [h2]
  split_ifs <;> simp

/-- C10: every Field Parser function returns its empty/null sentinel on
a non-string input, without raising. -/
theorem claim_C10_nonstring (v : PyVal) (h : ∀ s, v ≠ PyVal.str s) :
    extract_and_format_name v = [] ∧
    extract_name_and_relation v = ([], []) ∧
    extract_house_number v = [] ∧
    extract_age v = none ∧
    extract_gender v = none := by
  cases v with
  | nan => exact ⟨rfl, rfl, rfl, rfl, rfl⟩
  | int i => exact ⟨rfl, rfl, rfl, rfl, rfl⟩
  | str s => exact absurd rfl (h s)

/-- Witness for C10 at the concrete non-string input `NaN`. -/
theorem claim_C10_witness :
    extract_and_format_name .nan = [] ∧
    extract_name_and_relation .nan = ([], []) ∧
    extract_house_number .nan = [] ∧
    extract_age .nan = none ∧
    extract_gender .nan = none :=
  claim_C10_nonstring .nan (fun s h => by cases h)

/-- C4 counterexample: the code requires the full token `Age` — the
regex class `[ee]` matches exactly one mandatory `e` — so the input
`"Ag: 45"`, which the claim (final `e` tolerated missing) says yields
45, in fact yields null. -/
theorem claim_C4_counterexample :
    extract_age (.str (lit "Ag: 45")) = none := by decide

/-- C5 counterexample: the strict pattern of the code is `Gen[de]r` —
exactly one of `d`/`e` between `Gen` and `r` — so it never matches the
correctly spelled token `Gender`. On `"Gender: Female"` the algorithm
the claim describes (strict pattern `Gen(de)?r`, word `Female` contains
`ma` before `fe`) returns M, while the code falls through to the
word-boundary scan and returns F. -/
theorem claim_C5_counterexample :
    extract_gender (.str (lit "Gender: Female")) = some (lit "F") ∧
    genderSpec (lit "Gender: Female") = some (lit "M") := by
  exact ⟨by decide, by decide⟩

/-- C6 counterexample: house-number cleaning lowercases the text, so
`"House Number: 12-A"` yields `"12-a"`, not the claimed `"12-A"`. -/
theorem claim_C6_counterexample :
    extract_house_number (.str (lit "House Number: 12-A")) = lit "12-a" ∧
    lit "12-a" ≠ lit "12-A" := by
  exact ⟨by decide, by decide⟩

/-- C2 counterexample: an exception during recognition is caught inside
the Field Recognizer, not at the Record Assembler boundary: with number
recognition raising and everything else succeeding, `process_voter_box`
returns a record whose `top_right_text` is non-empty — not the all-empty
record the claim requires for any exception during recognition. -/
theorem claim_C2_counterexample :
    failNumberEnv.extract_number_fn [[0]] 0 0 1 1 = .error [] ∧
    (process_voter_box failNumberEnv [[0]] (0, 0, 1, 1) (0, 0, 1, 1)).number = [] ∧
    (process_voter_box failNumberEnv [[0]] (0, 0, 1, 1) (0, 0, 1, 1)).top_right_text
      = lit "ABC123" ∧
    process_voter_box failNumberEnv [[0]] (0, 0, 1, 1) (0, 0, 1, 1) ≠ emptyRecord := by
  refine ⟨rfl, by decide, by decide, by decide⟩

/-- C2 amended: an exception that reaches the handler inside
`process_voter_box` (watermark removal is the only fallible step of its
body) makes it return the all-empty record without propagating; an exception inside
recognition is caught inside `extract_number`/`extract_text` and
degrades only that one field to the empty string. -/
theorem claim_C2_amended :
    (∀ (env : OcrEnv) (img : Img) (box innerBox : Nat × Nat × Nat × Nat) (e : Str),
      process_voter_box_body env img box innerBox = .error e →
      process_voter_box env img box innerBox = emptyRecord) ∧
    (∀ (env : OcrEnv) (img : Img) (x y w h : Nat) (e : Str),
      env.extract_number_fn img x y w h = .error e →
      extract_number env img x y w h = []) ∧
    (∀ (env : OcrEnv) (img : Img) (x y w h : Nat) (e : Str),
      env.extract_text_fn img x y w h = .error e →
      extract_text env img x y w h = []) := by
  refine ⟨?_, ?_, ?_⟩
  · intro env img box innerBox e h
    unfold process_voter_box
    rw [h]
  · intro env img x y w h e he
    unfold extract_number
    rw [he]
  · intro env img x y w h e he
    unfold extract_text
    rw [he]

/-- Witness for C2 at a concrete environment whose watermark removal
raises. -/
theorem claim_C2_witness :
    process_voter_box failWatermarkEnv [] (0, 0, 0, 0) (0, 0, 0, 0) = emptyRecord :=
  claim_C2_amended.1 failWatermarkEnv [] (0, 0, 0, 0) (0, 0, 0, 0) [] rfl

/-- C9: on the non-exception path (watermark removal succeeded — the
only fallible step of the body), the main text block is split into
non-empty trimmed lines, padded with empty strings to exactly four
entries and truncated beyond four, and `line1..line4` are exactly those
four entries. -/
theorem claim_C9_four_lines (env : OcrEnv) (img : Img)
    (x y w h ix iy iw ih : Nat) (clean_img : Img)
    (hok : env.remove_watermark_fn (npCrop img y h x w) = .ok clean_img) :
    (∀ ls : List Str, (padTo4 ls).length = 4) ∧
    [(process_voter_box env img (x, y, w, h) (ix, iy, iw, ih)).line1,
     (process_voter_box env img (x, y, w, h) (ix, iy, iw, ih)).line2,
     (process_voter_box env img (x, y, w, h) (ix, iy, iw, ih)).line3,
     (process_voter_box env img (x, y, w, h) (ix, iy, iw, ih)).line4] =
      padTo4 (nonEmptyLines (extract_text env clean_img 5 (iy + ih + 5)
        (w * 2 / 3) (h - (iy + ih + 5) - 5))) := by
  refine ⟨padTo4_length, ?_⟩
  have hb : process_voter_box env img (x, y, w, h) (ix, iy, iw, ih) =
      { number := extract_number env clean_img ix iy iw ih
        top_right_text := extract_text env clean_img (iw + 10) 0 (w - iw - 10) ih
        line1 := (padTo4 (nonEmptyLines (extract_text env clean_img 5 (iy + ih + 5)
          (w * 2 / 3) (h - (iy + ih + 5) - 5)))).getD 0 []
        line2 := (padTo4 (nonEmptyLines (extract_text env clean_img 5 (iy + ih + 5)
          (w * 2 / 3) (h - (iy + ih + 5) - 5)))).getD 1 []
        line3 := (padTo4 (nonEmptyLines (extract_text env clean_img 5 (iy + ih + 5)
          (w * 2 / 3) (h - (iy + ih + 5) - 5)))).getD 2 []
        line4 := (padTo4 (nonEmptyLines (extract_text env clean_img 5 (iy + ih + 5)
          (w * 2 / 3) (h - (iy + ih + 5) - 5)))).getD 3 [] } := by
    simp only [process_voter_box, process_voter_box_body, hok]
  rw [hb]
  exact (padTo4_eq_getD _).symm

/-- Witness for C9 at a concrete all-succeeding environment. -/
theorem claim_C9_witness :
    (∀ ls : List Str, (padTo4 ls).length = 4) ∧
    [(process_voter_box okTextEnv [[1]] (0, 0, 1, 1) (0, 0, 1, 1)).line1,
     (process_voter_box okTextEnv [[1]] (0, 0, 1, 1) (0, 0, 1, 1)).line2,
     (process_voter_box okTextEnv [[1]] (0, 0, 1, 1) (0, 0, 1, 1)).line3,
     (process_voter_box okTextEnv [[1]] (0, 0, 1, 1) (0, 0, 1, 1)).line4] =
      padTo4 (nonEmptyLines (extract_text okTextEnv (npCrop [[1]] 0 1 0 1) 5 (0 + 1 + 5)
        (1 * 2 / 3) (1 - (0 + 1 + 5) - 5))) :=
  claim_C9_four_lines okTextEnv [[1]] 0 0 1 1 0 0 1 1 (npCrop [[1]] 0 1 0 1) rfl

/-- C7: numeric cleanup is idempotent — cleaning the canonical decimal
string of any natural number yields that number, so re-cleaning a
successful result changes nothing; null/NaN-like input yields null;
`"12.9"` yields 12 (truncation at the decimal point); `"abc"` yields
null, not zero. -/
theorem claim_C7_clean_number :
    (∀ n : Nat, clean_number (.str (natRepr n)) = some n) ∧
    (∀ (v : PyVal) (n : Nat), clean_number v = some n →
      clean_number (.str (natRepr n)) = some n) ∧
    clean_number .nan = none ∧
    clean_number (.str (lit "12.9")) = some 12 ∧
    clean_number (.str (lit "abc")) = none := by
  have key : ∀ n : Nat, clean_number (.str (natRepr n)) = some n := by
    intro n
    have hdig := natRepr_digits n
    have hsplit : splitChar (ch '.') (natRepr n) = [natRepr n] := by
      apply splitChar_eq_self
      intro c hc
      have hd := hdig c hc
      simp only [isDigitCh, Bool.and_eq_true, decide_eq_true_eq] at hd
      have h46 : ch '.' = 46 := rfl
      simp only [beq_eq_false_iff_ne, ne_eq, h46]
      omega
    have hfilter : (natRepr n).filter isDigitCh = natRepr n :=
      List.filter_eq_self.mpr hdig
    have hcn : clean_number (.str (natRepr n)) =
        (let value_str := natRepr n
         let before_decimal := (splitChar (ch '.') value_str).headD []
         let cleaned := before_decimal.filter isDigitCh
         if cleaned == [] then none else some (digitsToNat cleaned)) := rfl
    rw [hcn]
    simp only [hsplit, List.headD_cons, hfilter, digitsToNat_natRepr]
    have hne : ¬ ((natRepr n == []) = true) := by
      simp only [beq_iff_eq]
      exact natRepr_ne_nil n
    rw [if_neg hne]
  exact ⟨key, fun v n _ => key n, rfl, by decide, by decide⟩

/-- Witness for the re-cleaning conjunct of C7 at the concrete successful
cleaning of `"12.9"`. -/
theorem claim_C7_witness : clean_number (.str (natRepr 12)) = some 12 :=
  claim_C7_clean_number.2.1 (.str (lit "12.9")) 12 (by decide)

/-- C1 counterexample: a row whose every required column holds the
empty string — null/empty in the words of the claim — is NOT dropped
by `process_raw_data` (pandas `dropna` treats only missing values as
null; an empty string is a value), refuting the claimed
"drops if every required column is null/empty" direction. -/
theorem claim_C1_counterexample :
    (∀ c ∈ [Col.line1], emptyStrRow.get c = PyVal.str []) ∧
    (process_raw_data ⟨[emptyStrRow], false, false⟩ [Col.line1]).length = 1 := by
  constructor
  · intro c hc
    simp at hc
    subst hc
    rfl
  · have hp : process_raw_data ⟨[emptyStrRow], false, false⟩ [Col.line1] =
        (([emptyStrRow].filter
          (fun r => !([Col.line1].all (fun c => pdIsna (r.get c))))).map
          (parseRow ⟨[emptyStrRow], false, false⟩)).mergeSort recLe := rfl
    rw [hp, (List.mergeSort_perm _ _).length_eq]
    decide

/-- C1 amended: `process_raw_data` drops a row exactly when every
required column of that row is missing (NaN) — a row whose required
cells are empty strings is kept, since an empty string is a value —
and the retained rows, parsed column-wise, appear in the output sorted
ascending by `Part S.No` with missing serials last. -/
theorem claim_C1_amended (df : RawDF) (req : List Col) :
    (process_raw_data df req).Perm
      ((df.rows.filter
        (fun r => !(req.all (fun c => pdIsna (r.get c))))).map (parseRow df)) ∧
    (process_raw_data df req).Pairwise
      (fun a b => partLe a.part_serial b.part_serial = true) ∧
    (∀ r ∈ df.rows, (∃ c ∈ req, pdIsna (r.get c) = false) →
      parseRow df r ∈ process_raw_data df req) := by
  have hdef : process_raw_data df req =
      ((df.rows.filter
        (fun r => !(req.all (fun c => pdIsna (r.get c))))).map
        (parseRow df)).mergeSort recLe := rfl
  refine ⟨?_, ?_, ?_⟩
  · rw [hdef]
    exact List.mergeSort_perm _ _
  · rw [hdef]
    have htrans : ∀ a b c : ParsedRecord,
        recLe a b = true → recLe b c = true → recLe a c = true :=
      fun a b c h1 h2 => partLe_trans _ _ _ h1 h2
    have htot : ∀ a b : ParsedRecord, (recLe a b || recLe b a) = true :=
      fun a b => partLe_total _ _
    exact List.sorted_mergeSort htrans htot _
  · intro r hr hex
    rw [hdef, (List.mergeSort_perm _ _).mem_iff, List.mem_map]
    refine ⟨r, ?_, rfl⟩
    rw [List.mem_filter]
    refine ⟨hr, ?_⟩
    obtain ⟨c, hc, hna⟩ := hex
    have hnall : ¬ (req.all (fun c => pdIsna (r.get c)) = true) := by
      intro hall
      have h2 := List.all_eq_true.mp hall c hc
      rw [hna] at h2
      cases h2
    simp only [Bool.not_eq_true']
    exact Bool.eq_false_iff.mpr hnall

/-- Witness for the retention conjunct of C1 at a concrete one-row frame
whose required column holds a value. -/
theorem claim_C1_witness :
    parseRow wDf wRow ∈ process_raw_data wDf [Col.line1] :=
  (claim_C1_amended wDf [Col.line1]).2.2 wRow (by decide)
    ⟨Col.line1, by decide, by decide⟩

/-- C8: both name extractors return, for every input string, a string
made of capitalized all-letter words joined by single spaces — hence
only letters and single spaces, never digits or punctuation. -/
theorem claim_C8_names (s : Str) :
    NameOk (extract_and_format_name (.str s)) ∧
    NameOk ((extract_name_and_relation (.str s)).1) ∧
    (∀ c ∈ extract_and_format_name (.str s), isAlphaCh c = true ∨ c = 32) ∧
    (∀ c ∈ (extract_name_and_relation (.str s)).1, isAlphaCh c = true ∨ c = 32) := by
  have hclean : ∀ c ∈ cleanName s, isAlphaCh c = true ∨ isSpaceCh c = true := by
    intro c hc
    have hc1 : c ∈ collapseWs (s.filter (fun c => isAlphaCh c || isSpaceCh c)) :=
      mem_stripChars hc
    rcases mem_collapseWs hc1 with h | h
    · right
      rw [h]
      rfl
    · exact orE (List.mem_filter.mp h).2
  have h1 : NameOk (extract_and_format_name (.str s)) := by
    by_cases hlen : (splitChar 32 (cleanName s)).length > 1
    · have he : extract_and_format_name (.str s) =
          capJoin (joinSp ((splitChar 32 (cleanName s)).drop 1)) := by
        simp only [extract_and_format_name]
        rw [if_pos hlen]
      rw [he]
      apply capJoin_nameOk
      intro c hc
      rcases mem_joinSp hc with h | ⟨w, hw, hcw⟩
      · right
        rw [h]
        rfl
      · exact hclean c (mem_splitChar (List.drop_subset 1 _ hw) hcw)
    · have he : extract_and_format_name (.str s) = [] := by
        simp only [extract_and_format_name]
        rw [if_neg hlen]
      rw [he]
      exact nameOk_nil
  have hcleanR : ∀ c ∈ cleanRel s, isAlphaCh c = true ∨ isSpaceCh c = true := by
    intro c hc
    rw [cleanRel, lowerStr] at hc
    rcases List.mem_map.mp hc with ⟨c0, hc0, rfl⟩
    apply alphaOrSpace_toLower
    have hc1 : c0 ∈ collapseWs
        (s.map (fun c => if isAlphaCh c || isSpaceCh c then c else 32)) :=
      mem_stripChars hc0
    rcases mem_collapseWs hc1 with h | h
    · right
      rw [h]
      rfl
    · rcases List.mem_map.mp h with ⟨c1, _, rfl⟩
      by_cases hq : (isAlphaCh c1 || isSpaceCh c1) = true
      · rw [if_pos hq]
        exact orE hq
      · rw [if_neg hq]
        right
        rfl
  have h2 : NameOk ((extract_name_and_relation (.str s)).1) := by
    rcases hf : findNameRest (cleanRel s) with _ | rest
    · have he : (extract_name_and_relation (.str s)).1 = capJoin [] := by
        simp only [extract_name_and_relation, hf]
      rw [he]
      apply capJoin_nameOk
      intro c hc
      simp at hc
    · have he : (extract_name_and_relation (.str s)).1 = capJoin (pyStrip rest) := by
        simp only [extract_name_and_relation, hf]
      rw [he]
      apply capJoin_nameOk
      intro c hc
      exact hcleanR c (findNameRest_subset hf c (mem_stripChars hc))
  exact ⟨h1, h2, nameOk_chars h1, nameOk_chars h2⟩

theorem tryAgeAt_sound {l : Str} {n : Nat} (h : tryAgeAt l = some n) :
    ∃ a g e ws1 sep ws2 ds rest,
      l = a :: g :: e :: (ws1 ++ sep :: (ws2 ++ (ds ++ rest))) ∧
      lowEq a 'a' = true ∧ lowEq g 'g' = true ∧ lowEq e 'e' = true ∧
      (∀ c ∈ ws1, isSpaceCh c = true) ∧ isSepCh sep = true ∧
      (∀ c ∈ ws2, isSpaceCh c = true) ∧ ds ≠ [] ∧
      (∀ c ∈ ds, isDigitCh c = true) ∧ n = digitsToNat ds := by
  rcases l with _ | ⟨a, _ | ⟨g, _ | ⟨e, rest0⟩⟩⟩
  · simp [tryAgeAt] at h
  · simp [tryAgeAt] at h
  · simp [tryAgeAt] at h
  by_cases h1 : (lowEq a 'a' && lowEq g 'g' && lowEq e 'e') = true
  case neg =>
    rw [tryAgeAt, if_neg h1] at h
    cases h
  case pos =>
    rw [tryAgeAt, if_pos h1] at h
    obtain ⟨⟨ha, hg⟩, he⟩ : (lowEq a 'a' = true ∧ lowEq g 'g' = true) ∧
        lowEq e 'e' = true := by
      simpa [Bool.and_eq_true] using h1
    rcases hdw : rest0.dropWhile isSpaceCh with _ | ⟨sep, r2⟩
    · rw [hdw] at h
      cases h
    · rw [hdw] at h
      have h' : (if isSepCh sep = true then
          (if ((r2.dropWhile isSpaceCh).takeWhile isDigitCh == []) = true then none
           else some (digitsToNat ((r2.dropWhile isSpaceCh).takeWhile isDigitCh)))
          else none) = some n := h
      clear h
      by_cases hsep : isSepCh sep = true
      case neg =>
        rw [if_neg hsep] at h'
        cases h'
      case pos =>
        rw [if_pos hsep] at h'
        by_cases hde : ((r2.dropWhile isSpaceCh).takeWhile isDigitCh == []) = true
        case pos =>
          rw [if_pos hde] at h'
          cases h'
        case neg =>
          rw [if_neg hde] at h'
          simp only [Option.some.injEq] at h'
          refine ⟨a, g, e, rest0.takeWhile isSpaceCh, sep, r2.takeWhile isSpaceCh,
            (r2.dropWhile isSpaceCh).takeWhile isDigitCh,
            (r2.dropWhile isSpaceCh).dropWhile isDigitCh,
            ?_, ha, hg, he, ?_, hsep, ?_, ?_, ?_, h'.symm⟩
          · have e1 : r2.dropWhile isSpaceCh =
                (r2.dropWhile isSpaceCh).takeWhile isDigitCh ++
                (r2.dropWhile isSpaceCh).dropWhile isDigitCh :=
              (List.takeWhile_append_dropWhile _ _).symm
            have e2 : r2 = r2.takeWhile isSpaceCh ++
                ((r2.dropWhile isSpaceCh).takeWhile isDigitCh ++
                 (r2.dropWhile isSpaceCh).dropWhile isDigitCh) := by
              conv_lhs => rw [← List.takeWhile_append_dropWhile isSpaceCh r2, e1]
            have hr : rest0 = rest0.takeWhile isSpaceCh ++ (sep ::
                (r2.takeWhile isSpaceCh ++
                 ((r2.dropWhile isSpaceCh).takeWhile isDigitCh ++
                  (r2.dropWhile isSpaceCh).dropWhile isDigitCh))) := by
              conv_lhs => rw [← List.takeWhile_append_dropWhile isSpaceCh rest0, hdw]
              rw [← e2]
            conv_lhs => rw [hr]
          · exact fun c hc => List.mem_takeWhile_imp hc
          · exact fun c hc => List.mem_takeWhile_imp hc
          · simpa using hde
          · exact fun c hc => List.mem_takeWhile_imp hc

theorem findAge_sound {l : Str} {n : Nat} (h : findAge l = some n) :
    ∃ pre suf, l = pre ++ suf ∧ tryAgeAt suf = some n := by
  induction l with
  | nil => simp [findAge] at h
  | cons a as ih =>
    rw [findAge] at h
    rcases ht : tryAgeAt (a :: as) with _ | m
    · rw [ht] at h
      obtain ⟨pre, suf, heq, hsuf⟩ := ih h
      exact ⟨a :: pre, suf, by rw [heq]; rfl, hsuf⟩
    · rw [ht] at h
      simp only [Option.some.injEq] at h
      subst h
      exact ⟨[], a :: as, rfl, ht⟩

/-- C4 amended: age extraction matches the full case-insensitive token
`Age` (the final `e` is required: the regex class `[ee]` matches one
mandatory `e`), then optional whitespace, one separator of `:`, `!`,
`l`/`L`, `+`, optional whitespace and digits, returned as an integer,
null otherwise. The spec examples hold; `"Ag: 45"` yields null. Every
successful extraction exhibits such a decomposition of the input. -/
theorem claim_C4_amended :
    extract_age (.str (lit "Age: 45")) = some 45 ∧
    extract_age (.str (lit "Agel 45")) = some 45 ∧
    extract_age (.str (lit "AGE+07")) = some 7 ∧
    extract_age (.str (lit "random text")) = none ∧
    extract_age (.str (lit "Ag: 45")) = none ∧
    (∀ s n, extract_age (.str s) = some n →
      ∃ pre a g e ws1 sep ws2 ds rest,
        s = pre ++ (a :: g :: e :: (ws1 ++ sep :: (ws2 ++ (ds ++ rest)))) ∧
        lowEq a 'a' = true ∧ lowEq g 'g' = true ∧ lowEq e 'e' = true ∧
        (∀ c ∈ ws1, isSpaceCh c = true) ∧ isSepCh sep = true ∧
        (∀ c ∈ ws2, isSpaceCh c = true) ∧ ds ≠ [] ∧
        (∀ c ∈ ds, isDigitCh c = true) ∧ n = digitsToNat ds) := by
  refine ⟨by decide, by decide, by decide, by decide, by decide, ?_⟩
  intro s n h
  obtain ⟨pre, suf, rfl, hsuf⟩ := findAge_sound h
  obtain ⟨a, g, e, ws1, sep, ws2, ds, rest, heq, ha, hg, he, hws1, hsep, hws2,
    hne, hds, hn⟩ := tryAgeAt_sound hsuf
  exact ⟨pre, a, g, e, ws1, sep, ws2, ds, rest, by rw [heq], ha, hg, he, hws1,
    hsep, hws2, hne, hds, hn⟩

/-- Witness for the decomposition conjunct of C4 at `"Age: 45"`. -/
theorem claim_C4_witness :
    ∃ pre a g e ws1 sep ws2 ds rest,
      lit "Age: 45" = pre ++ (a :: g :: e :: (ws1 ++ sep :: (ws2 ++ (ds ++ rest)))) ∧
      lowEq a 'a' = true ∧ lowEq g 'g' = true ∧ lowEq e 'e' = true ∧
      (∀ c ∈ ws1, isSpaceCh c = true) ∧ isSepCh sep = true ∧
      (∀ c ∈ ws2, isSpaceCh c = true) ∧ ds ≠ [] ∧
      (∀ c ∈ ds, isDigitCh c = true) ∧ 45 = digitsToNat ds :=
  claim_C4_amended.2.2.2.2.2 (lit "Age: 45") 45 (by decide)

/-- C5 amended: the strict pattern is `Gen` followed by exactly one of
`d`/`e` and then `r` — so the correctly spelled token `Gender` never
matches it and such inputs are classified by the fallback scan — with
the separator set also matching `L` case-insensitively; the codomain is
the closed set {M, F, null}, and the spec examples hold. -/
theorem claim_C5_amended (s : Str) :
    (extract_gender (.str s) = some (lit "M") ∨
     extract_gender (.str s) = some (lit "F") ∨
     extract_gender (.str s) = none) ∧
    extract_gender (.str (lit "Gender: Male")) = some (lit "M") ∧
    extract_gender (.str (lit "Gender! Femle")) = some (lit "F") ∧
    extract_gender (.str (lit "Gendr: male")) = some (lit "M") ∧
    extract_gender (.str (lit "Gener! fem")) = some (lit "F") ∧
    extract_gender (.str (lit "qqq")) = none ∧
    extract_gender (.str (lit "Gender: Female")) = some (lit "F") := by
  refine ⟨?_, by decide, by decide, by decide, by decide, by decide, by decide⟩
  have hlen : ∀ t : Str, lenientGender t = some (lit "M") ∨
      lenientGender t = some (lit "F") ∨ lenientGender t = none := by
    intro t
    have hd : lenientGender t =
        (if hasBoundPat (lit "ma") (lowerStr t) = true then some (lit "M")
         else if hasBoundPat (lit "fe") (lowerStr t) = true then some (lit "F")
         else none) := rfl
    rw [hd]
    split_ifs <;> simp
  have he : extract_gender (.str s) =
      (match findGenderWord s with
       | some w =>
         let gender := lowerStr w
         if containsSub (lit "ma") gender then some (lit "M")
         else if containsSub (lit "fe") gender then some (lit "F")
         else lenientGender s
       | none => lenientGender s) := rfl
  rcases hf : findGenderWord s with _ | w
  · simp only [he, hf]
    exact hlen s
  · simp only [he, hf]
    split_ifs
    · simp
    · simp
    · exact hlen s

/-- C6 amended: the captured house-number text is returned verbatim
when empty or exactly a hyphen, and otherwise stripped of leading and
trailing spaces and hyphens — but the cleaning lowercases, so
`"House Number: 12-A"` yields `"12-a"`, not `"12-A"`. In general the
result is empty, exactly a hyphen, or starts and ends with neither a
space nor a hyphen. -/
theorem claim_C6_amended :
    extract_house_number (.str (lit "House Number: -")) = lit "-" ∧
    extract_house_number (.str (lit "House Number: 12-A")) = lit "12-a" ∧
    extract_house_number (.str (lit "nothing relevant")) = [] ∧
    (∀ s, extract_house_number (.str s) = [] ∨
      extract_house_number (.str s) = [ch '-'] ∨
      ((∀ c, (extract_house_number (.str s)).head? = some c → isStripCh c = false) ∧
       (∀ c, (extract_house_number (.str s)).getLast? = some c → isStripCh c = false))) := by
  refine ⟨by decide, by decide, by decide, ?_⟩
  intro s
  have he : extract_house_number (.str s) =
      (match findHouseCapture (cleanHouse s) with
       | some cap =>
         let entry := pyStrip cap
         if entry == [] || entry == [ch '-'] then entry
         else stripChars isStripCh entry
       | none => []) := rfl
  rcases hf : findHouseCapture (cleanHouse s) with _ | cap
  · left
    simp only [he, hf]
  · by_cases hc : ((pyStrip cap == []) || (pyStrip cap == [ch '-'])) = true
    · have hval : extract_house_number (.str s) = pyStrip cap := by
        simp only [he, hf]
        rw [if_pos hc]
      rcases orE hc with h | h
      · left
        rw [hval]
        simpa using h
      · right
        left
        rw [hval]
        simpa using h
    · have hval : extract_house_number (.str s) =
          stripChars isStripCh (pyStrip cap) := by
        simp only [he, hf]
        rw [if_neg hc]
      rcases stripChars_boundary isStripCh (pyStrip cap) with h | ⟨hh, hl⟩
      · left
        rw [hval, h]
      · right
        right
        rw [hval]
        exact ⟨hh, hl⟩

/-- Witness for C8 at a concrete input, discharging the membership
hypothesis of its character conjunct at the letter `R`. -/
theorem claim_C8_witness :
    isAlphaCh (ch 'R') = true ∨ ch 'R' = 32 :=
  (claim_C8_names (lit "Name ram kumar")).2.2.1 (ch 'R') (by decide)

/-- Witness for C6 at a concrete input. -/
theorem claim_C6_witness :
    extract_house_number (.str (lit "a house number b 5-")) = [] ∨
    extract_house_number (.str (lit "a house number b 5-")) = [ch '-'] ∨
    ((∀ c, (extract_house_number (.str (lit "a house number b 5-"))).head? = some c →
      isStripCh c = false) ∧
     (∀ c, (extract_house_number (.str (lit "a house number b 5-"))).getLast? = some c →
      isStripCh c = false)) :=
  claim_C6_amended.2.2.2 (lit "a house number b 5-")

end ElectoralRoll
